import Mathlib

/-!
# Verification of the encrypted-brew-dash repository

This file shallowly embeds the core of the repository:

* the Solidity FHE contract `Potion` (fields `highestPlayerGuess`,
  `hasPlayed`, `players`, event `ComputeResult`, functions `compute` and
  `getAllHighestGuesses`);
* the client receipt-processing segment of the hook `submitPotion`
  (`src/hooks/usePotionContract.ts`);
* the mock submission flow `submitPotion` of `src/lib/contract.ts` with its
  30-second timeout race;
* the client encryption helpers `encryptValue` / `formatHandle` and the UI
  guard of `handleBrewPotion`.

Ciphertext handles are modelled as abstract identifiers (`Nat`) allocated
freshly by every homomorphic operation; a store maps each handle to the
plaintext it stands for, and every `euint16` operation computes the plaintext
of the fresh handle modulo `2^16`, matching FHEVM `euint16` semantics.
Access-control effects (`FHE.allowThis`, `FHE.allow`,
`FHE.makePubliclyDecryptable`) are recorded as monotonically growing lists.
A revert (invalid attestation in `FHE.fromExternal`) is modelled by `Option`:
a call that returns `none` leaves no successor state, no grants and no event,
which is exactly the EVM's all-or-nothing transaction semantics.
-/

namespace PotionModel

/- Ciphertext handles and account addresses are both modelled as plain `Nat`
identifiers (written out as `Nat` rather than through an abbreviation so that
arithmetic automation sees the underlying type). -/

/-- The FHE coprocessor state visible to the contract: a fresh-handle counter,
the plaintext store, and the three grant tables written by `FHE.allowThis`,
`FHE.allow` and `FHE.makePubliclyDecryptable`. -/
structure FheState where
  next : Nat
  val : Nat → Nat
  allowedThis : List Nat
  allowedPairs : List (Nat × Nat)
  pubDec : List Nat

/-- Allocate a fresh handle whose plaintext is `v`. -/
def FheState.alloc (s : FheState) (v : Nat) : FheState × Nat :=
  ({ s with
      next := s.next + 1
      val := fun h => if h = s.next then v else s.val h },
   s.next)

/-- `FHE.asEuint16` applied to a `euint8` handle: widening preserves the
plaintext (a `euint8` plaintext is below 256 < 2^16). -/
def fheAsEuint16 (s : FheState) (h : Nat) : FheState × Nat :=
  s.alloc (s.val h)

/-- `FHE.asEuint16` applied to a plaintext constant (trivial encryption). -/
def fheConst16 (s : FheState) (c : Nat) : FheState × Nat :=
  s.alloc (c % 65536)

/-- `FHE.add` on `euint16`: plaintexts add modulo 2^16. -/
def fheAdd16 (s : FheState) (h1 h2 : Nat) : FheState × Nat :=
  s.alloc ((s.val h1 + s.val h2) % 65536)

/-- `FHE.mul` on `euint16`: plaintexts multiply modulo 2^16. -/
def fheMul16 (s : FheState) (h1 h2 : Nat) : FheState × Nat :=
  s.alloc ((s.val h1 * s.val h2) % 65536)

/-- `FHE.gt` on `euint16`: an `ebool` handle whose plaintext is 1 iff the
first plaintext is strictly greater. -/
def fheGt16 (s : FheState) (h1 h2 : Nat) : FheState × Nat :=
  s.alloc (if s.val h2 < s.val h1 then 1 else 0)

/-- `FHE.select` on `euint16`: both branches are materialized; the fresh
handle's plaintext is the first branch's iff the `ebool` plaintext is
nonzero. -/
def fheSelect16 (s : FheState) (c h1 h2 : Nat) : FheState × Nat :=
  s.alloc (if s.val c ≠ 0 then s.val h1 else s.val h2)

/-- `FHE.allowThis`: grant the contract itself rights on `h`. -/
def fheAllowThis (s : FheState) (h : Nat) : FheState :=
  { s with allowedThis := h :: s.allowedThis }

/-- `FHE.allow`: grant address `a` rights on `h`. -/
def fheAllow (s : FheState) (h : Nat) (a : Nat) : FheState :=
  { s with allowedPairs := (h, a) :: s.allowedPairs }

/-- `FHE.makePubliclyDecryptable`: mark `h` publicly decryptable. -/
def fheMakePubliclyDecryptable (s : FheState) (h : Nat) : FheState :=
  { s with pubDec := h :: s.pubDec }

/-- An `externalEuint8` argument of `compute` together with its attestation
status: `plaintext` is the byte the submitter encrypted, and `attValid` says
whether this handle/proof pair passes the coprocessor's attestation check in
`FHE.fromExternal`. -/
structure ExternalEuint8 where
  plaintext : Nat
  attValid : Bool

/-- `FHE.fromExternal` on an `externalEuint8`: reverts (`none`) unless the
attestation validates the pair; on success it imports the ciphertext as a
fresh internal handle whose plaintext is the submitted byte (a `euint8`
plaintext always lies in [0,255], hence the `% 256`). -/
def fheFromExternal (s : FheState) (e : ExternalEuint8) :
    Option (FheState × Nat) :=
  if e.attValid then some (s.alloc (e.plaintext % 256)) else none

/-- On-chain state of the `Potion` contract, plus the FHE coprocessor state
and the log of emitted `ComputeResult` events (each event carries one
`euint16` handle, the contract's only event argument). -/
structure PotionState where
  fhe : FheState
  highestPlayerGuess : Nat → Nat
  hasPlayed : Nat → Bool
  players : List Nat
  events : List Nat

namespace Potion

/-- `Potion.compute`, line by line from the Solidity source: import the five
external ciphertexts (reverting on any invalid attestation), widen each to
`euint16` and sum, scale by 14, add 300, register a first-time caller and
take its previous best as encrypted zero, compare-and-select the new best
homomorphically, persist it, grant rights, and emit `ComputeResult(result)`.
A `none` result models the whole transaction reverting with no state
change. -/
def compute (st : PotionState) (sender : Nat)
    (aExt bExt cExt dExt eExt : ExternalEuint8) :
    Option (PotionState × Nat) :=
  -- euint8 a..e = FHE.fromExternal(..., attestation); any failure reverts
  (fheFromExternal st.fhe aExt).bind fun pa =>
  (fheFromExternal pa.1 bExt).bind fun pb =>
  (fheFromExternal pb.1 cExt).bind fun pc =>
  (fheFromExternal pc.1 dExt).bind fun pd =>
  (fheFromExternal pd.1 eExt).bind fun pe =>
  let a := pa.2
  let b := pb.2
  let c := pc.2
  let d := pd.2
  let e := pe.2
  -- sum = FHE.add(FHE.add(FHE.add(FHE.add(a16, b16), c16), d16), e16)
  let p1 := fheAsEuint16 pe.1 a
  let p2 := fheAsEuint16 p1.1 b
  let p3 := fheAdd16 p2.1 p1.2 p2.2
  let p4 := fheAsEuint16 p3.1 c
  let p5 := fheAdd16 p4.1 p3.2 p4.2
  let p6 := fheAsEuint16 p5.1 d
  let p7 := fheAdd16 p6.1 p5.2 p6.2
  let p8 := fheAsEuint16 p7.1 e
  let p9 := fheAdd16 p8.1 p7.2 p8.2
  -- scaled = FHE.mul(sum, FHE.asEuint16(14))
  let p10 := fheConst16 p9.1 14
  let p11 := fheMul16 p10.1 p9.2 p10.2
  -- result = FHE.add(scaled, FHE.asEuint16(300))
  let p12 := fheConst16 p11.1 300
  let p13 := fheAdd16 p12.1 p11.2 p12.2
  let result := p13.2
  -- euint16 prevBest = highestPlayerGuess[msg.sender];
  -- if (!hasPlayed[msg.sender]) { players.push; prevBest = 0; hasPlayed = true }
  let reg :=
    if st.hasPlayed sender then
      (p13.1, st.highestPlayerGuess sender, st.players, st.hasPlayed)
    else
      let pz := fheConst16 p13.1 0
      (pz.1, pz.2, st.players ++ [sender],
       fun x => if x = sender then true else st.hasPlayed x)
  let s14 := reg.1
  let prevBest := reg.2.1
  let players1 := reg.2.2.1
  let hasPlayed1 := reg.2.2.2
  -- ebool isHigher = FHE.gt(result, prevBest);
  let p15 := fheGt16 s14 result prevBest
  -- euint16 newBest = FHE.select(isHigher, result, prevBest);
  let p16 := fheSelect16 p15.1 p15.2 result prevBest
  let s16 := p16.1
  let newBest := p16.2
  -- highestPlayerGuess[msg.sender] = newBest;
  let hpg1 := fun x => if x = sender then newBest else st.highestPlayerGuess x
  -- FHE.allowThis(result); FHE.allowThis(highestPlayerGuess[msg.sender]);
  let s17 := fheAllowThis s16 result
  let s18 := fheAllowThis s17 newBest
  -- FHE.allow(result, msg.sender); FHE.allow(newBest, msg.sender);
  let s19 := fheAllow s18 result sender
  let s20 := fheAllow s19 newBest sender
  -- FHE.makePubliclyDecryptable(newBest);
  let s21 := fheMakePubliclyDecryptable s20 newBest
  -- emit ComputeResult(result); return result;
  some ({ fhe := s21
          highestPlayerGuess := hpg1
          hasPlayed := hasPlayed1
          players := players1
          events := st.events ++ [result] },
        result)

/-- `Potion.getAllHighestGuesses`: return the player list and, in the same
order, each player's stored encrypted best score (the Solidity for-loop is a
map over `players`). -/
def getAllHighestGuesses (st : PotionState) : List Nat × List Nat :=
  (st.players, st.players.map st.highestPlayerGuess)

end Potion

/-- The contract's state at deployment: empty mappings (the default `euint16`
is the zero handle `0`), no players, no events; the coprocessor has no live
handle yet, so fresh handles start above the null handle `0`, whose plaintext
is 0. -/
def initialState : PotionState :=
  { fhe := { next := 1, val := fun _ => 0, allowedThis := [],
             allowedPairs := [], pubDec := [] }
    highestPlayerGuess := fun _ => 0
    hasPlayed := fun _ => false
    players := []
    events := [] }

/-- Handle well-formedness: every stored best-score handle is a live handle
of the coprocessor (below the fresh counter). It holds of `initialState`
(the default mapping handle 0 is below 1) and is preserved by `compute`. -/
def PotionState.Wf (st : PotionState) : Prop :=
  ∀ x : Nat, st.highestPlayerGuess x < st.fhe.next

/-- Registration invariant: an address occurs in `players` once if it
`hasPlayed`, zero times otherwise. -/
def RegInv (st : PotionState) : Prop :=
  ∀ x : Nat, st.players.count x = if st.hasPlayed x then 1 else 0

/-- Public-decryptability invariant: every registered player's stored
best-score handle has been marked publicly decryptable. -/
def PubInv (st : PotionState) : Prop :=
  ∀ x ∈ st.players, st.highestPlayerGuess x ∈ st.fhe.pubDec

/-- A concrete first run for evaluation: player 7 submits plaintexts
1,2,3,4,5 with valid attestation against the freshly deployed contract
(the spec's end-to-end scenario, expected score 510). -/
def exampleRun : PotionState × Nat :=
  (Potion.compute initialState 7 ⟨1, true⟩ ⟨2, true⟩ ⟨3, true⟩ ⟨4, true⟩
    ⟨5, true⟩).getD (initialState, 0)

end PotionModel

namespace Client

/-!
## Client model

The hook `submitPotion` (src/hooks/usePotionContract.ts) after the
transaction receipt arrives: it scans the receipt logs with viem's
`decodeEventLog`, extracts the `ComputeResult` event's arguments, throws when
no such event decodes, and otherwise decrypts the emitted handle.
-/

/-- The outcome of `decodeEventLog` on one receipt log: the decoded event
name and the decoded argument object. `argsValue` / `argsIsHighest` model
the JavaScript property reads `decoded.args.value` / `decoded.args.isHighest`;
`none` models a property that is absent from the decoded args (reading it
yields a nullish value). -/
structure DecodedEvent where
  eventName : String
  argsValue : Option String
  argsIsHighest : Option Bool

/-- One receipt log, together with the result of decoding it against the
contract ABI: `none` models `decodeEventLog` throwing, which the loop's
catch branch turns into `continue`. -/
structure Log where
  decoded : Option DecodedEvent

/-- The log-scanning loop of the hook `submitPotion`: starting from
`value = null`, `isHighest = null`, walk the receipt logs in order; at the
first log that decodes to an event named "ComputeResult", store
`decoded.args.value` and `decoded.args.isHighest` and break. -/
def scanLogs : List Log → Option String × Option Bool
  | [] => (none, none)
  | l :: ls =>
    match l.decoded with
    | some d =>
      if d.eventName = "ComputeResult" then (d.argsValue, d.argsIsHighest)
      else scanLogs ls
    | none => scanLogs ls

/-- The value the hook `submitPotion` resolves with on success:
`{ decrypted, isHighest }`. -/
structure SubmitOutcome where
  decrypted : Nat
  isHighest : Option Bool

/-- The tail of the hook `submitPotion` after the receipt arrives: scan the
logs; if `value` is still nullish, throw "ComputeResult not found in logs";
otherwise decrypt the stored value-handle (`decryptOf` abstracts
`requestUserDecryption`) and return `{ decrypted, isHighest }`. -/
def submitPotionReceiptPhase (decryptOf : String → Nat) (logs : List Log) :
    Except String SubmitOutcome :=
  match scanLogs logs with
  | (none, _) => Except.error ("ComputeResult not found in logs")
  | (some v, ih) => Except.ok { decrypted := decryptOf v, isHighest := ih }

/-- Decoding of the contract's event declaration
`event ComputeResult(euint16 value);` — the contract's only event: a decoded
`ComputeResult` log carries exactly the single argument `value`; the ABI has
no `isHighest` argument, so that property is absent from the decoded args. -/
def decodedComputeResult (handle : String) : DecodedEvent :=
  { eventName := "ComputeResult", argsValue := some handle,
    argsIsHighest := none }

/-- A receipt whose logs conform to the contract ABI: every log that decodes
to an event named "ComputeResult" decodes exactly as the ABI prescribes. -/
def AbiConformant (logs : List Log) : Prop :=
  ∀ l ∈ logs, ∀ d, l.decoded = some d → d.eventName = "ComputeResult" →
    ∃ v, d = decodedComputeResult v

/-!
The mock submission flow `submitPotion` of src/lib/contract.ts: a promise
resolved by whichever fires first of (a) the ComputeResult listener callback
(which returns early, without resolving, on events for other addresses) and
(b) the 30000 ms `setTimeout`; each resolution path calls `cleanup()` before
resolving.
-/

/-- The environment of one run of contract.ts `submitPotion`: at what time
(ms after the listener is installed), if ever, a ComputeResult event for the
submitting user's own address reaches the listener callback, and what
`decryptResult` yields on its payload (`Except.error` models the callback's
catch branch). -/
structure SubmitEnv where
  matchingEventTime : Option Nat
  decryptOutcome : Except String Nat

/-- The resolved value of the flow's promise, plus the fact that the
resolution path ran `cleanup()`, clearing the pending listener/timer. -/
structure FlowResult where
  success : Bool
  score : Option Nat
  error : Option String
  listenerCleaned : Bool

/-- The bounded wait: `setTimeout(..., 30000)`. -/
def timeoutMs : Nat := 30000

/-- The promise race inside contract.ts `submitPotion`: a matching event
arriving strictly before the 30000 ms timeout wins the race and resolves with
the decryption outcome; otherwise the timeout fires and resolves with the
failure result. Every resolution path calls `cleanup()` first, so the
promise always resolves (the function is total). -/
def submitPotionFlow (env : SubmitEnv) : FlowResult :=
  match env.matchingEventTime with
  | some t =>
    if t < timeoutMs then
      match env.decryptOutcome with
      | Except.ok s =>
        { success := true, score := some s, error := none,
          listenerCleaned := true }
      | Except.error msg =>
        { success := false, score := none, error := some msg,
          listenerCleaned := true }
    else
      { success := false, score := none,
        error := some ("Timeout waiting for result"), listenerCleaned := true }
  | none =>
    { success := false, score := none,
      error := some ("Timeout waiting for result"), listenerCleaned := true }

/-!
The encryption helper `encryptValue` (src/lib/fhe.ts) and the argument
construction of the hook `submitPotion`.
-/

/-- A JavaScript value reaching `formatHandle`: a string, a byte array
(Uint8Array/Buffer), or `undefined` (the result of indexing `handles[i]`
beyond the array's length). -/
inductive JsHandle where
  | str : String → JsHandle
  | bytes : List Nat → JsHandle
  | undefined : JsHandle

/-- One lowercase hex digit, as JavaScript `Number.toString(16)` renders
0..15: code point 48 + n for 0..9, 97 + (n - 10) for 10..15. -/
def hexDigit (n : Nat) : String :=
  if n < 10 then String.singleton (Char.ofNat (48 + n))
  else String.singleton (Char.ofNat (87 + n))

/-- `b.toString(16).padStart(2, '0')` for a Uint8Array element (a byte,
below 256). -/
def byteToHex (b : Nat) : String :=
  hexDigit (b / 16) ++ hexDigit (b % 16)

/-- `formatHandle` from the hook `submitPotion`: a string is passed through
(prefixed with "0x" when the prefix is missing); any non-string value is fed
through `new Uint8Array(handle)`, whose elements are hex-formatted and
joined after "0x". `new Uint8Array(undefined)` is the empty typed array, so
`formatHandle(undefined)` yields the bare prefix "0x". -/
def formatHandle : JsHandle → String
  | JsHandle.str s => if s.startsWith ("0x") then s else "0x" ++ s
  | JsHandle.bytes bs => "0x" ++ String.join (bs.map byteToHex)
  | JsHandle.undefined => "0x"

/-- The handles produced by `encryptValue` (fhe.ts): `createEncryptedInput`,
then the for-loop performs one `add8` per element of `plainDigits` — with no
check on the list's length — and `encrypt()` returns one ciphertext handle
per added value. `enc` abstracts the SDK's per-value ciphertext handle. -/
def encryptValueHandles (enc : Nat → JsHandle) (plainDigits : List Nat) :
    List JsHandle :=
  plainDigits.map enc

/-- JavaScript array indexing: `handles[i]` is `undefined` at or beyond the
array's length. -/
def jsIndex (l : List JsHandle) (i : Nat) : JsHandle :=
  l.getD i JsHandle.undefined

/-- The ordered argument list the hook `submitPotion` passes to `compute`:
`formatHandle` of `handles[0]` .. `handles[4]`, then of the input proof. -/
def computeCallArgs (enc : Nat → JsHandle) (proof : JsHandle)
    (vaultCode : List Nat) : List String :=
  let handles := encryptValueHandles enc vaultCode
  [formatHandle (jsIndex handles 0), formatHandle (jsIndex handles 1),
   formatHandle (jsIndex handles 2), formatHandle (jsIndex handles 3),
   formatHandle (jsIndex handles 4), formatHandle proof]

/-- The only guard in `handleBrewPotion` (the game page): an empty selection
is rejected with a toast and nothing is submitted; any non-empty selection
(length 1..5, the upper bound enforced separately by `handlePotionSelect`'s
`MAX_SELECTION = 5`) proceeds to submission. -/
def brewGuardAllows (selectedPotions : List Nat) : Bool :=
  selectedPotions.length != 0

/-- A concrete receipt for evaluation: one undecodable log and one decoded
foreign event, no ComputeResult. -/
def exampleLogsNoMatch : List Log :=
  [{ decoded := none },
   { decoded := some { eventName := "Transfer", argsValue := some ("0xabc"),
                       argsIsHighest := none } }]

/-- A concrete receipt for evaluation: one undecodable log followed by an
ABI-conformant ComputeResult log. -/
def exampleLogsMatch : List Log :=
  [{ decoded := none },
   { decoded := some (decodedComputeResult ("0x1234")) }]

end Client

namespace PotionModel

/-!
## Helper lemmas
-/

lemma fheFromExternal_eq_some {s : FheState} {x : ExternalEuint8}
    {p : FheState × Nat} (h : fheFromExternal s x = some p) :
    x.attValid = true := by
  cases hx : x.attValid
  · rw [fheFromExternal, hx] at h
    simp at h
  · rfl

lemma attValid_of_compute_some {st : PotionState} {sender : Nat}
    {a b c d e : ExternalEuint8} {p : PotionState × Nat}
    (h : Potion.compute st sender a b c d e = some p) :
    a.attValid = true ∧ b.attValid = true ∧ c.attValid = true ∧
    d.attValid = true ∧ e.attValid = true := by
  simp only [Potion.compute, Option.bind_eq_some] at h
  obtain ⟨pa, ha2, pb, hb2, pc, hc2, pd, hd2, pe, he2, -⟩ := h
  exact ⟨fheFromExternal_eq_some ha2, fheFromExternal_eq_some hb2,
    fheFromExternal_eq_some hc2, fheFromExternal_eq_some hd2,
    fheFromExternal_eq_some he2⟩

lemma getAll_pubDec_of_PubInv {s : PotionState} (h : PubInv s) :
    ∀ g ∈ (Potion.getAllHighestGuesses s).2, g ∈ s.fhe.pubDec := by
  intro g hg
  simp only [Potion.getAllHighestGuesses, List.mem_map] at hg
  obtain ⟨x, hx, rfl⟩ := hg
  exact h x hx

/-!
## Claims about the contract
-/

/-- C1: for every call to `compute` with five encrypted inputs whose
plaintexts lie in [0,255] and a valid attestation, the call succeeds, and the
plaintext of the returned and emitted score handle is exactly
`(a+b+c+d+e)*14 + 300`: the widened euint16 arithmetic never wraps, since the
maximum value 18150 is below 2^16. -/
theorem compute_score_formula (st : PotionState) (sender : Nat)
    (a b c d e : ExternalEuint8)
    (hav : a.attValid = true) (hbv : b.attValid = true) (hcv : c.attValid = true)
    (hdv : d.attValid = true) (hev : e.attValid = true)
    (ha : a.plaintext ≤ 255) (hb : b.plaintext ≤ 255) (hc : c.plaintext ≤ 255)
    (hd : d.plaintext ≤ 255) (he : e.plaintext ≤ 255) :
    ∃ st2 res, Potion.compute st sender a b c d e = some (st2, res) ∧
      st2.fhe.val res
        = (a.plaintext + b.plaintext + c.plaintext + d.plaintext + e.plaintext) * 14 + 300 ∧
      st2.events = st.events ++ [res] := by
  have ea : a.plaintext % 256 = a.plaintext := Nat.mod_eq_of_lt (by omega)
  have eb : b.plaintext % 256 = b.plaintext := Nat.mod_eq_of_lt (by omega)
  have ec : c.plaintext % 256 = c.plaintext := Nat.mod_eq_of_lt (by omega)
  have ed : d.plaintext % 256 = d.plaintext := Nat.mod_eq_of_lt (by omega)
  have ee : e.plaintext % 256 = e.plaintext := Nat.mod_eq_of_lt (by omega)
  by_cases hp : st.hasPlayed sender = true <;>
  · simp only [Potion.compute, fheFromExternal, hav, hbv, hcv, hdv, hev, hp,
      ite_true, ite_false, Option.some_bind, fheAsEuint16, fheAdd16, fheMul16,
      fheConst16, fheGt16, fheSelect16, fheAllowThis, fheAllow,
      fheMakePubliclyDecryptable, FheState.alloc]
    refine ⟨_, _, rfl, ?_, rfl⟩
    simp +arith [Nat.add_assoc, ea, eb, ec, ed, ee]
    all_goals omega

/-- C2: after every successful `compute` call, the plaintext of the caller's
stored best score equals the maximum of the best before the call (0 before
the first call) and the newly computed result — in particular the best never
decreases — and handle well-formedness is preserved, so the statement applies
across successive calls. -/
theorem compute_best_is_max (st st2 : PotionState) (sender : Nat)
    (a b c d e : ExternalEuint8) (res : Nat)
    (hwf : st.Wf)
    (h : Potion.compute st sender a b c d e = some (st2, res)) :
    st2.fhe.val (st2.highestPlayerGuess sender)
      = max (if st.hasPlayed sender then st.fhe.val (st.highestPlayerGuess sender) else 0)
            (st2.fhe.val res)
    ∧ (if st.hasPlayed sender then st.fhe.val (st.highestPlayerGuess sender) else 0)
        ≤ st2.fhe.val (st2.highestPlayerGuess sender)
    ∧ st2.Wf := by
  obtain ⟨hav, hbv, hcv, hdv, hev⟩ := attValid_of_compute_some h
  have hb0 : st.highestPlayerGuess sender < st.fhe.next := hwf sender
  have hne0 : st.highestPlayerGuess sender ≠ st.fhe.next := by omega
  have hne : ∀ k : Nat, st.highestPlayerGuess sender ≠ st.fhe.next + k := by
    intro k; omega
  by_cases hp : st.hasPlayed sender = true <;>
  · simp only [Potion.compute, fheFromExternal, hav, hbv, hcv, hdv, hev, hp,
      ite_true, ite_false, Option.some_bind, fheAsEuint16, fheAdd16, fheMul16,
      fheConst16, fheGt16, fheSelect16, fheAllowThis, fheAllow,
      fheMakePubliclyDecryptable, FheState.alloc,
      Option.some.injEq, Prod.mk.injEq] at h
    obtain ⟨hst, hres⟩ := h
    subst hst hres
    refine ⟨?_, ?_, ?_⟩
    · simp +arith [Nat.add_assoc, hp, hne0, hne]
      all_goals first
      | (split_ifs <;> omega)
      | omega
    · simp +arith [Nat.add_assoc, hp, hne0, hne]
      all_goals split_ifs <;> omega
    · intro x
      by_cases hx : x = sender
      · simp +arith [PotionState.Wf, Nat.add_assoc, hx]
      · have hb1 : st.highestPlayerGuess x < st.fhe.next := hwf x
        simp +arith [PotionState.Wf, Nat.add_assoc, hx]
        all_goals omega

/-- C3: `compute` appends the caller to `players` exactly on the first
successful call (a second call leaves `players` unchanged), it preserves the
registration invariant, and afterwards `hasPlayed x` holds iff `x` occurs
exactly once in `players`. -/
theorem compute_registers_once (st st2 : PotionState) (sender : Nat)
    (a b c d e : ExternalEuint8) (res : Nat)
    (hinv : RegInv st)
    (h : Potion.compute st sender a b c d e = some (st2, res)) :
    RegInv st2
    ∧ (∀ x : Nat, st2.hasPlayed x = true ↔ st2.players.count x = 1)
    ∧ (st.hasPlayed sender = true → st2.players = st.players)
    ∧ (st.hasPlayed sender = false → st2.players = st.players ++ [sender])
    ∧ st2.hasPlayed sender = true := by
  obtain ⟨hav, hbv, hcv, hdv, hev⟩ := attValid_of_compute_some h
  by_cases hp : st.hasPlayed sender = true
  · simp only [Potion.compute, fheFromExternal, hav, hbv, hcv, hdv, hev, hp,
      ite_true, ite_false, Option.some_bind,
      Option.some.injEq, Prod.mk.injEq] at h
    obtain ⟨hst, hres⟩ := h
    subst hst hres
    refine ⟨hinv, ?_, fun _ => rfl, fun hc => absurd hp (by simp [hc]), hp⟩
    intro x
    have h1 := hinv x
    by_cases hq : st.hasPlayed x = true <;> simp_all
  · have hbf : st.hasPlayed sender = false := by
      revert hp; cases st.hasPlayed sender <;> simp
    have hcnt : st.players.count sender = 0 := by
      have h1 := hinv sender
      simp [hbf] at h1
      exact h1
    simp only [Potion.compute, fheFromExternal, hav, hbv, hcv, hdv, hev, hp,
      ite_true, ite_false, Option.some_bind,
      Option.some.injEq, Prod.mk.injEq] at h
    obtain ⟨hst, hres⟩ := h
    subst hst hres
    have hreg : ∀ x : Nat, (st.players ++ [sender]).count x
        = if (if x = sender then true else st.hasPlayed x) then 1 else 0 := by
      intro x
      by_cases hx : x = sender
      · subst hx; simp [List.count_append, hcnt]
      · have h1 := hinv x
        simp [List.count_append, hx, h1]
    refine ⟨hreg, ?_, fun hc => absurd hc (by simp [hbf]), fun _ => rfl, by simp⟩
    intro x
    by_cases hx : x = sender
    · subst hx
      simp [List.count_append, hcnt]
    · have h3 := hinv x
      cases hq : st.hasPlayed x <;> simp_all [List.count_append, hx]

/-- C4: when attestation validation fails for any of the five handle/proof
pairs, `compute` reverts: the call yields no successor state at all — so
`highestPlayerGuess`, `hasPlayed` and `players` are untouched, no grants are
made and no ComputeResult event is emitted. -/
theorem compute_invalid_attestation_reverts (st : PotionState) (sender : Nat)
    (a b c d e : ExternalEuint8)
    (h : a.attValid = false ∨ b.attValid = false ∨ c.attValid = false ∨
         d.attValid = false ∨ e.attValid = false) :
    Potion.compute st sender a b c d e = none := by
  cases ho : Potion.compute st sender a b c d e with
  | none => rfl
  | some p =>
    obtain ⟨hav, hbv, hcv, hdv, hev⟩ := attValid_of_compute_some ho
    simp_all

/-- C5: after every successful `compute` call, the caller's stored best-score
handle is publicly decryptable, the contract itself and the caller hold
rights on both the result and the updated best, the public-decryptability
invariant is preserved, and hence every handle in the best-score list
returned by `getAllHighestGuesses` is publicly decryptable. -/
theorem compute_grants_public_decryption (st st2 : PotionState) (sender : Nat)
    (a b c d e : ExternalEuint8) (res : Nat)
    (hpub : PubInv st)
    (h : Potion.compute st sender a b c d e = some (st2, res)) :
    st2.highestPlayerGuess sender ∈ st2.fhe.pubDec
    ∧ res ∈ st2.fhe.allowedThis
    ∧ st2.highestPlayerGuess sender ∈ st2.fhe.allowedThis
    ∧ (res, sender) ∈ st2.fhe.allowedPairs
    ∧ (st2.highestPlayerGuess sender, sender) ∈ st2.fhe.allowedPairs
    ∧ PubInv st2
    ∧ ∀ g ∈ (Potion.getAllHighestGuesses st2).2, g ∈ st2.fhe.pubDec := by
  obtain ⟨hav, hbv, hcv, hdv, hev⟩ := attValid_of_compute_some h
  by_cases hp : st.hasPlayed sender = true
  · simp only [Potion.compute, fheFromExternal, hav, hbv, hcv, hdv, hev, hp,
      ite_true, ite_false, Option.some_bind, fheAllowThis, fheAllow,
      fheMakePubliclyDecryptable, Option.some.injEq, Prod.mk.injEq] at h
    obtain ⟨hst, hres⟩ := h
    have hpub2 : PubInv st2 := by
      rw [← hst]
      intro x hx
      by_cases hxs : x = sender
      · simp [hxs]
      · simp [hxs]
        right
        exact hpub x hx
    subst hst hres
    refine ⟨?_, ?_, ?_, ?_, ?_, hpub2, getAll_pubDec_of_PubInv hpub2⟩ <;> simp
  · simp only [Potion.compute, fheFromExternal, hav, hbv, hcv, hdv, hev, hp,
      ite_true, ite_false, Option.some_bind, fheAllowThis, fheAllow,
      fheMakePubliclyDecryptable, Option.some.injEq, Prod.mk.injEq] at h
    obtain ⟨hst, hres⟩ := h
    have hpub2 : PubInv st2 := by
      rw [← hst]
      intro x hx
      by_cases hxs : x = sender
      · simp [hxs]
      · simp [hxs]
        right
        refine hpub x ?_
        have hx2 : x ∈ st.players ++ [sender] := hx
        rcases List.mem_append.mp hx2 with h1 | h1
        · exact h1
        · simp at h1
          exact absurd h1 hxs
    subst hst hres
    refine ⟨?_, ?_, ?_, ?_, ?_, hpub2, getAll_pubDec_of_PubInv hpub2⟩ <;> simp

/-- C6: `getAllHighestGuesses` returns two parallel lists of equal length;
the score list is exactly the player list mapped through
`highestPlayerGuess` (so the i-th handle belongs to the i-th address); under
the registration invariant no address appears twice; and any later state
with the same `players` (no intervening registration) yields the same
address ordering. -/
theorem getAllHighestGuesses_parallel (st stLater : PotionState)
    (hinv : RegInv st)
    (hsame : stLater.players = st.players) :
    (Potion.getAllHighestGuesses st).1.length = (Potion.getAllHighestGuesses st).2.length
    ∧ (Potion.getAllHighestGuesses st).2
        = (Potion.getAllHighestGuesses st).1.map st.highestPlayerGuess
    ∧ (Potion.getAllHighestGuesses st).1.Nodup
    ∧ (Potion.getAllHighestGuesses stLater).1 = (Potion.getAllHighestGuesses st).1 := by
  refine ⟨by simp [Potion.getAllHighestGuesses], rfl, ?_,
    by simp [Potion.getAllHighestGuesses, hsame]⟩
  rw [List.nodup_iff_count_le_one]
  intro x
  have h1 := hinv x
  by_cases hx : st.hasPlayed x = true <;> simp_all [Potion.getAllHighestGuesses]

end PotionModel

namespace Client

/-!
## Helper lemmas about the log scan
-/

lemma scanLogs_no_match (logs : List Log)
    (hnone : ∀ l ∈ logs, ∀ d, l.decoded = some d → d.eventName ≠ "ComputeResult") :
    scanLogs logs = (none, none) := by
  induction logs with
  | nil => rfl
  | cons l ls ih =>
    have h2 : ∀ l2 ∈ ls, ∀ d, l2.decoded = some d → d.eventName ≠ "ComputeResult" :=
      fun l2 hl2 d hd => hnone l2 (List.mem_cons_of_mem l hl2) d hd
    cases hd : l.decoded with
    | none => simp [scanLogs, hd, ih h2]
    | some d =>
      have h1 := hnone l (List.mem_cons_self l ls) d hd
      simp [scanLogs, hd, h1, ih h2]

lemma scanLogs_isHighest_none (logs : List Log) (habi : AbiConformant logs) :
    (scanLogs logs).2 = none := by
  induction logs with
  | nil => rfl
  | cons l ls ih =>
    have h2 : AbiConformant ls :=
      fun l2 hl2 => habi l2 (List.mem_cons_of_mem l hl2)
    cases hd : l.decoded with
    | none => simp [scanLogs, hd, ih h2]
    | some d =>
      by_cases hn : d.eventName = "ComputeResult"
      · obtain ⟨v, hv⟩ := habi l (List.mem_cons_self l ls) d hd hn
        subst hv
        simp [scanLogs, hd, decodedComputeResult]
      · simp [scanLogs, hd, hn, ih h2]

/-!
## Claims about the client
-/

/-- C7: when a confirmed receipt contains no log that decodes to a
ComputeResult event, the hook `submitPotion` throws the explicit error
"ComputeResult not found in logs" — it never returns a score. -/
theorem submitPotion_event_not_found (decryptOf : String → Nat) (logs : List Log)
    (hnone : ∀ l ∈ logs, ∀ d, l.decoded = some d → d.eventName ≠ "ComputeResult") :
    submitPotionReceiptPhase decryptOf logs
      = Except.error ("ComputeResult not found in logs") := by
  rw [submitPotionReceiptPhase, scanLogs_no_match logs hnone]

/-- Witness for C7: a receipt holding an undecodable log and a decoded
Transfer log makes the hook throw. -/
theorem submitPotion_event_not_found_witness :
    (∀ l ∈ exampleLogsNoMatch, ∀ d, l.decoded = some d →
        d.eventName ≠ "ComputeResult") ∧
    submitPotionReceiptPhase (fun _ => 0) exampleLogsNoMatch
      = Except.error ("ComputeResult not found in logs") :=
  have hnone : ∀ l ∈ exampleLogsNoMatch, ∀ d, l.decoded = some d →
      d.eventName ≠ "ComputeResult" := by
    intro l hl d hd
    simp only [exampleLogsNoMatch, List.mem_cons, List.not_mem_nil,
      or_false] at hl
    rcases hl with h | h
    · subst h
      simp at hd
    · subst h
      simp at hd
      subst hd
      decide
  ⟨hnone, submitPotion_event_not_found (fun _ => 0) exampleLogsNoMatch hnone⟩

/-- C8: when no matching result event arrives strictly within the 30000 ms
bound, the submission flow of contract.ts resolves — it does not stay
pending — with `success = false`, the timeout error, and the pending
listener cleaned up. -/
theorem submitPotion_timeout (env : SubmitEnv)
    (hlate : ∀ t, env.matchingEventTime = some t → timeoutMs ≤ t) :
    submitPotionFlow env
      = { success := false, score := none,
          error := some ("Timeout waiting for result"),
          listenerCleaned := true } := by
  cases he : env.matchingEventTime with
  | none => simp [submitPotionFlow, he]
  | some t =>
    have h1 := hlate t he
    simp [submitPotionFlow, he, Nat.not_lt.mpr h1]

/-- Witness for C8: an environment in which the matching event never
arrives resolves to the timeout failure with the listener cleaned. -/
theorem submitPotion_timeout_witness :
    (∀ t, (⟨none, Except.error ("boom")⟩ : SubmitEnv).matchingEventTime
        = some t → timeoutMs ≤ t) ∧
    submitPotionFlow ⟨none, Except.error ("boom")⟩
      = { success := false, score := none,
          error := some ("Timeout waiting for result"),
          listenerCleaned := true } :=
  have hlate : ∀ t, (⟨none, Except.error ("boom")⟩ : SubmitEnv).matchingEventTime
      = some t → timeoutMs ≤ t := fun _ ht => nomatch ht
  ⟨hlate, submitPotion_timeout _ hlate⟩

/-- C9: the contract's ComputeResult event declares exactly one argument
(`value`), so on every successful run over ABI-conformant logs the
`isHighest` property the hook reads from the decoded args is absent, and the
`isHighest` field of the hook's returned value is the nullish value, never a
boolean. -/
theorem submitPotion_isHighest_none (decryptOf : String → Nat) (logs : List Log)
    (r : SubmitOutcome) (habi : AbiConformant logs)
    (hok : submitPotionReceiptPhase decryptOf logs = Except.ok r) :
    r.isHighest = none := by
  have h2 := scanLogs_isHighest_none logs habi
  rw [submitPotionReceiptPhase] at hok
  rcases hs : scanLogs logs with ⟨v, ih0⟩
  rw [hs] at hok h2
  simp at h2
  subst h2
  cases v with
  | none => simp at hok
  | some vv =>
    simp at hok
    rw [← hok]

/-- Witness for C9: a receipt with an ABI-conformant ComputeResult log
makes the hook succeed with `isHighest = none`. -/
theorem submitPotion_isHighest_none_witness :
    AbiConformant exampleLogsMatch ∧
    submitPotionReceiptPhase (fun _ => 510) exampleLogsMatch
      = Except.ok { decrypted := 510, isHighest := none } ∧
    ({ decrypted := 510, isHighest := none } : SubmitOutcome).isHighest = none :=
  have habi : AbiConformant exampleLogsMatch := by
    intro l hl d hd hn
    simp only [exampleLogsMatch, List.mem_cons, List.not_mem_nil,
      or_false] at hl
    rcases hl with h | h
    · subst h; simp at hd
    · subst h
      simp at hd
      exact ⟨"0x1234", hd.symm⟩
  ⟨habi, rfl,
   submitPotion_isHighest_none (fun _ => 510) exampleLogsMatch _ habi rfl⟩

/-- C10: `encryptValue` yields exactly one ciphertext handle per element of
its input list with no length check; the UI guard lets any non-empty
selection through; and for a selection of length k < 5 every missing
position among the five handle arguments of `compute` is formatted by
`formatHandle(undefined)` as the empty hex string "0x". -/
theorem encryptValue_short_list_sends_empty_handles (enc : Nat → JsHandle)
    (proof : JsHandle) (vaultCode : List Nat)
    (_hlen : vaultCode.length < 5) (hne : vaultCode ≠ []) :
    (encryptValueHandles enc vaultCode).length = vaultCode.length
    ∧ brewGuardAllows vaultCode = true
    ∧ ∀ i, vaultCode.length ≤ i → i < 5 →
        (computeCallArgs enc proof vaultCode).getD i ("") = "0x" := by
  refine ⟨by simp [encryptValueHandles], by simp [brewGuardAllows, hne], ?_⟩
  intro i hge hlt
  have hhl : (encryptValueHandles enc vaultCode).length ≤ i := by
    simp [encryptValueHandles]
    omega
  have hund : jsIndex (encryptValueHandles enc vaultCode) i = JsHandle.undefined := by
    rw [jsIndex, List.getD_eq_default]
    exact hhl
  interval_cases i <;>
    simp_all [computeCallArgs, formatHandle]

/-- Witness for C10: a two-potion brew [10, 20] passes the UI guard, yields
two handles, and positions 2..4 of the compute arguments are the empty hex
string. -/
theorem encryptValue_short_list_sends_empty_handles_witness :
    ([10, 20] : List Nat).length < 5 ∧ ([10, 20] : List Nat) ≠ [] ∧
    ((encryptValueHandles (fun d => JsHandle.bytes [d]) [10, 20]).length
        = ([10, 20] : List Nat).length
     ∧ brewGuardAllows [10, 20] = true
     ∧ ∀ i, ([10, 20] : List Nat).length ≤ i → i < 5 →
        (computeCallArgs (fun d => JsHandle.bytes [d])
            (JsHandle.str ("0xproof")) [10, 20]).getD i ("") = "0x") :=
  ⟨by decide, by decide,
   encryptValue_short_list_sends_empty_handles (fun d => JsHandle.bytes [d])
     (JsHandle.str ("0xproof")) [10, 20] (by decide) (by decide)⟩

end Client

namespace PotionModel

/-!
## Witnesses for the contract claims
-/

/-- Witness for C1 at the spec scenario 1,2,3,4,5 (score 510). -/
theorem compute_score_formula_witness :
    ∃ st2 res,
      Potion.compute initialState 7 ⟨1, true⟩ ⟨2, true⟩ ⟨3, true⟩ ⟨4, true⟩
          ⟨5, true⟩ = some (st2, res) ∧
      st2.fhe.val res = (1 + 2 + 3 + 4 + 5) * 14 + 300 ∧
      st2.events = initialState.events ++ [res] :=
  compute_score_formula initialState 7 ⟨1, true⟩ ⟨2, true⟩ ⟨3, true⟩ ⟨4, true⟩
    ⟨5, true⟩ rfl rfl rfl rfl rfl (by decide) (by decide) (by decide)
    (by decide) (by decide)

/-- Witness for C2 at the spec scenario: after the first call the stored
best is the maximum of 0 and the result. -/
theorem compute_best_is_max_witness :
    initialState.Wf ∧
    (exampleRun.1.fhe.val (exampleRun.1.highestPlayerGuess 7)
      = max (if initialState.hasPlayed 7 then
               initialState.fhe.val (initialState.highestPlayerGuess 7) else 0)
            (exampleRun.1.fhe.val exampleRun.2)
     ∧ (if initialState.hasPlayed 7 then
          initialState.fhe.val (initialState.highestPlayerGuess 7) else 0)
         ≤ exampleRun.1.fhe.val (exampleRun.1.highestPlayerGuess 7)
     ∧ exampleRun.1.Wf) :=
  ⟨fun _ => Nat.one_pos,
   compute_best_is_max initialState exampleRun.1 7 ⟨1, true⟩ ⟨2, true⟩ ⟨3, true⟩
     ⟨4, true⟩ ⟨5, true⟩ exampleRun.2 (fun _ => Nat.one_pos) rfl⟩

/-- Witness for C3: the first call registers player 7 exactly once. -/
theorem compute_registers_once_witness :
    RegInv initialState ∧
    (RegInv exampleRun.1
     ∧ (∀ x : Nat, exampleRun.1.hasPlayed x = true ↔
          exampleRun.1.players.count x = 1)
     ∧ (initialState.hasPlayed 7 = true →
          exampleRun.1.players = initialState.players)
     ∧ (initialState.hasPlayed 7 = false →
          exampleRun.1.players = initialState.players ++ [7])
     ∧ exampleRun.1.hasPlayed 7 = true) :=
  ⟨fun _ => rfl,
   compute_registers_once initialState exampleRun.1 7 ⟨1, true⟩ ⟨2, true⟩
     ⟨3, true⟩ ⟨4, true⟩ ⟨5, true⟩ exampleRun.2 (fun _ => rfl) rfl⟩

/-- Witness for C4: an invalid attestation on the third input reverts the
whole call. -/
theorem compute_invalid_attestation_reverts_witness :
    (⟨3, false⟩ : ExternalEuint8).attValid = false ∧
    Potion.compute initialState 7 ⟨1, true⟩ ⟨2, true⟩ ⟨3, false⟩ ⟨4, true⟩
      ⟨5, true⟩ = none :=
  ⟨rfl,
   compute_invalid_attestation_reverts initialState 7 ⟨1, true⟩ ⟨2, true⟩
     ⟨3, false⟩ ⟨4, true⟩ ⟨5, true⟩ (Or.inr (Or.inr (Or.inl rfl)))⟩

/-- Witness for C5: after the first call, player 7's best is publicly
decryptable and all grants are in place. -/
theorem compute_grants_public_decryption_witness :
    PubInv initialState ∧
    (exampleRun.1.highestPlayerGuess 7 ∈ exampleRun.1.fhe.pubDec
     ∧ exampleRun.2 ∈ exampleRun.1.fhe.allowedThis
     ∧ exampleRun.1.highestPlayerGuess 7 ∈ exampleRun.1.fhe.allowedThis
     ∧ (exampleRun.2, 7) ∈ exampleRun.1.fhe.allowedPairs
     ∧ (exampleRun.1.highestPlayerGuess 7, 7) ∈ exampleRun.1.fhe.allowedPairs
     ∧ PubInv exampleRun.1
     ∧ ∀ g ∈ (Potion.getAllHighestGuesses exampleRun.1).2,
         g ∈ exampleRun.1.fhe.pubDec) :=
  ⟨fun x hx => absurd hx (List.not_mem_nil x),
   compute_grants_public_decryption initialState exampleRun.1 7 ⟨1, true⟩
     ⟨2, true⟩ ⟨3, true⟩ ⟨4, true⟩ ⟨5, true⟩ exampleRun.2
     (fun x hx => absurd hx (List.not_mem_nil x)) rfl⟩

/-- Witness for C6 at the deployed state. -/
theorem getAllHighestGuesses_parallel_witness :
    RegInv initialState ∧
    ((Potion.getAllHighestGuesses initialState).1.length
        = (Potion.getAllHighestGuesses initialState).2.length
     ∧ (Potion.getAllHighestGuesses initialState).2
        = (Potion.getAllHighestGuesses initialState).1.map
            initialState.highestPlayerGuess
     ∧ (Potion.getAllHighestGuesses initialState).1.Nodup
     ∧ (Potion.getAllHighestGuesses initialState).1
        = (Potion.getAllHighestGuesses initialState).1) :=
  ⟨fun _ => rfl,
   getAllHighestGuesses_parallel initialState initialState (fun _ => rfl) rfl⟩

end PotionModel
